import Mathlib

/-
Verification development for the preregister dashboard server.

The server fetches tabular signup rows from a spreadsheet source,
aggregates them into a Summary (total signups, marketing consent count
and rate, per-country distribution, unknown-country count), caches the
Summary for a 60 second freshness window, and serves it over an HTTP
endpoint.

Shallow embedding conventions:
- a cell is `Option String`: `none` models a missing / null / undefined
  cell, `some s` a text cell; the JS coercion `String(x || "")` is
  modelled by `jstr`;
- the fetch of rows and the metadata lookup are external effects; they
  are modelled by passing their result (an `Except` value, resp. an
  `Option String`) as an explicit argument, and each cache-aware
  operation returns, besides its result, the new cache state and a
  Boolean recording whether the external call was performed;
- the clock is passed explicitly: `now` (milliseconds, `Int`) for cache
  arithmetic and `nowIso` (the ISO rendering of the current time) for
  the `updatedAt` field;
- `marketingRate` is an exact rational, modelling the division the
  code performs.
-/

namespace Dashboard

/-- A cell as delivered by the row source: absent or a string. -/
abbrev Cell := Option String

/-- A raw row: ordered sequence of cells. -/
abbrev Row := List Cell

/-- Models the JS coercion `String(x || "")` on a cell: a missing cell
or an empty string both yield the empty string. -/
def jstr : Cell → String
  | none => ""
  | some s => s

/-- Model of JS `String.prototype.trim`: drop whitespace characters
from both ends. -/
def jsTrim (s : String) : String :=
  ⟨((s.data.dropWhile Char.isWhitespace).reverse.dropWhile Char.isWhitespace).reverse⟩

/-- Model of JS `String.prototype.toLowerCase` (ASCII range, which
covers every value the spec and the sheet use). -/
def jsToLower (s : String) : String := ⟨s.data.map Char.toLower⟩

/-- Model of JS `String.prototype.toUpperCase` (ASCII range). -/
def jsToUpper (s : String) : String := ⟨s.data.map Char.toUpper⟩

/-- The truthy consent values, from `truthyValues` in server.js. -/
def truthyValues : List String := ["true", "1", "yes", "si"]

/-- From server.js `isTruthy`: trim, lowercase, and test membership in
the truthy set. -/
def isTruthy (value : Cell) : Bool :=
  truthyValues.contains (jsToLower (jsTrim (jstr value)))

/-- From server.js `normalizeHeader`: trim and lowercase a header cell. -/
def normalizeHeader (header : Cell) : String :=
  jsToLower (jsTrim (jstr header))

/-- From server.js `isRowEmpty`: every cell trims to the empty string. -/
def isRowEmpty (row : Row) : Bool :=
  row.all fun cell => jsTrim (jstr cell) = ""

/-- JS `headers.indexOf(name)`: index of the first occurrence, `none`
for the JS result -1. -/
def indexOf (headers : List String) (name : String) : Option Nat :=
  headers.findIdx? (· = name)

/-- From server.js `getValue`: resolve the column index from the header
index; absent column, out-of-range index and falsy cells all yield the
empty string (`row[idx] || ""`). -/
def getValue (headers : List String) (row : Row) (name : String) : String :=
  match indexOf headers name with
  | none => ""
  | some idx => jstr (row.get? idx).join

/-- One entry of the `countries` list of a Summary. -/
structure CountryEntry where
  code : String
  count : Nat
deriving DecidableEq, Repr

/-- The aggregated Summary object produced by `buildSummary`. -/
structure Summary where
  total : Nat
  marketingYes : Nat
  marketingRate : ℚ
  countries : List CountryEntry
  unknownCount : Nat
  topCountry : Option CountryEntry
  updatedAt : String
deriving DecidableEq, Repr

/-- The mutable accumulators of the aggregation loop in `buildSummary`:
`total`, `marketingYes`, `unknownCount` and the `countryCounts` object,
modelled as an insertion-ordered association list. -/
structure Acc where
  total : Nat
  marketingYes : Nat
  unknownCount : Nat
  countryCounts : List (String × Nat)
deriving DecidableEq, Repr

/-- JS `countryCounts[country] = (countryCounts[country] || 0) + 1`:
increment in place, or append a fresh key with count 1. -/
def bump : List (String × Nat) → String → List (String × Nat)
  | [], c => [(c, 1)]
  | (k, n) :: rest, c =>
      if k = c then (k, n + 1) :: rest else (k, n) :: bump rest c

/-- The country-code normalization of `buildSummary`:
`String(countryRaw || "unknown").trim().toUpperCase()` where
`countryRaw = getValue(row, "ip_country")`. -/
def normCountry (headers : List String) (row : Row) : String :=
  let countryRaw := getValue headers row "ip_country"
  jsToUpper (jsTrim (if countryRaw = "" then "unknown" else countryRaw))

/-- The counting tail of the loop body of `buildSummary`, lines
121-135 of server.js: increment `total`, count marketing consent,
and attribute the row to a country bucket or to `unknownCount`. -/
def countRow (headers : List String) (acc : Acc) (row : Row) : Acc :=
  let acc1 : Acc := { acc with total := acc.total + 1 }
  let marketing := getValue headers row "acepta_marketing"
  let acc2 : Acc :=
    if isTruthy (some marketing) then
      { acc1 with marketingYes := acc1.marketingYes + 1 }
    else acc1
  let country := normCountry headers row
  if country = "" ∨ country = "UNKNOWN" then
    { acc2 with unknownCount := acc2.unknownCount + 1 }
  else
    { acc2 with countryCounts := bump acc2.countryCounts country }

/-- The body of the `for` loop of `buildSummary`, lines 110-136 of
server.js: skip empty rows, skip rows with blank email and timestamp,
otherwise count the row (`countRow`). -/
def processRow (headers : List String) (acc : Acc) (row : Row) : Acc :=
  if row.length = 0 ∨ isRowEmpty row then acc
  else
    let email := getValue headers row "email"
    let timestamp := getValue headers row "timestamp"
    if jsTrim email = "" ∧ jsTrim timestamp = "" then acc
    else countRow headers acc row

/-- The JS sort comparator `(a, b) => b.count - a.count`, as the
"may precede" relation used by the stable sort: a may precede b iff
its count is at least that of b. -/
def countryLe (a b : CountryEntry) : Bool :=
  b.count ≤ a.count

/-- The zero-valued Summary built by `buildSummary` when the fetched
row set is empty. -/
def emptySummary (nowIso : String) : Summary :=
  { total := 0
    marketingYes := 0
    marketingRate := 0
    countries := []
    unknownCount := 0
    topCountry := none
    updatedAt := nowIso }

/-- The fetch-independent part of `buildSummary`, lines 79-152 of
server.js: aggregate a fetched row set into a Summary.  Row 0 is the
header; `countries` is the country map, converted to entries in
insertion order and stably sorted descending by count (JS sort is
stable); `topCountry` is `countries[0] || null`. -/
def buildSummaryFromRows (rows : List Row) (nowIso : String) : Summary :=
  if rows.isEmpty then emptySummary nowIso
  else
    let headers := (rows.headD []).map normalizeHeader
    let acc := rows.tail.foldl (processRow headers) ⟨0, 0, 0, []⟩
    let countries :=
      (acc.countryCounts.map fun p => CountryEntry.mk p.1 p.2).mergeSort countryLe
    { total := acc.total
      marketingYes := acc.marketingYes
      marketingRate :=
        if acc.total = 0 then 0 else (acc.marketingYes : ℚ) / (acc.total : ℚ)
      countries := countries
      unknownCount := acc.unknownCount
      topCountry := countries.head?
      updatedAt := nowIso }

/-- The process-wide summary cache slot of server.js:
`cache = { data: null, fetchedAt: 0 }`. -/
structure CacheState where
  data : Option Summary
  fetchedAt : Int
deriving DecidableEq, Repr

/-- The cache freshness window, `CACHE_TTL_MS = 60 * 1000`. -/
def CACHE_TTL_MS : Int := 60 * 1000

/-- From server.js `buildSummary`: serve the cached Summary when it
exists and is fresh; otherwise consume the fetch result (failure
propagates, cache untouched), aggregate, store and return.  Returns the
result, the new cache state, and whether a fetch was performed. -/
def buildSummary (now : Int) (fetchRes : Except String (List Row))
    (nowIso : String) (st : CacheState) :
    Except String Summary × CacheState × Bool :=
  match st.data with
  | some cached =>
      if now - st.fetchedAt < CACHE_TTL_MS then (Except.ok cached, st, false)
      else
        match fetchRes with
        | Except.error e => (Except.error e, st, true)
        | Except.ok rows =>
            let s := buildSummaryFromRows rows nowIso
            (Except.ok s, ⟨some s, now⟩, true)
  | none =>
      match fetchRes with
      | Except.error e => (Except.error e, st, true)
      | Except.ok rows =>
          let s := buildSummaryFromRows rows nowIso
          (Except.ok s, ⟨some s, now⟩, true)

/-- JS truthiness of the `cachedSheetTitle` variable: a non-null,
non-empty string. -/
def titleTruthy : Option String → Bool
  | none => false
  | some s => ¬s.isEmpty

/-- From server.js `getSheetTitle`: return the cached title if truthy;
otherwise perform the metadata lookup (its result is the `lookup`
argument, `none` when the source reports no sheets), store
`title || null` in the cache and return it.  Returns the result, the
new cache value, and whether a metadata lookup was performed. -/
def getSheetTitle (cached : Option String) (lookup : Option String) :
    Option String × Option String × Bool :=
  if titleTruthy cached then (cached, cached, false)
  else
    let t : Option String :=
      match lookup with
      | none => none
      | some s => if s.isEmpty then none else some s
    (t, t, true)

/-- An HTTP response of the summary endpoint. -/
inductive ApiResponse
  | success (status : Nat) (body : Summary)
  | failure (status : Nat) (error : String)
deriving DecidableEq, Repr

/-- The handler of GET /api/summary, lines 159-169 of server.js:
200 with the Summary on success, 500 with a fixed error body on any
failure (the upstream error is logged, not returned). -/
def handleSummaryRequest (result : Except String Summary) : ApiResponse :=
  match result with
  | Except.ok s => ApiResponse.success 200 s
  | Except.error _ => ApiResponse.failure 500 "Failed to load sheet data"

/-- A row qualifies as a signup record: it is not skipped by either
guard of the loop body — it has nonzero length and a non-blank cell,
and at least one of its email / timestamp fields is non-blank.  This
names the complement of the two skip conditions of `processRow`. -/
def Qualifies (headers : List String) (row : Row) : Prop :=
  ¬(row.length = 0 ∨ isRowEmpty row = true) ∧
  ¬(jsTrim (getValue headers row "email") = "" ∧
    jsTrim (getValue headers row "timestamp") = "")

instance (headers : List String) (row : Row) :
    Decidable (Qualifies headers row) := by
  unfold Qualifies; infer_instance

/-- Sum of the per-country counts of a country map. -/
def sumCounts (l : List (String × Nat)) : Nat := (l.map Prod.snd).sum

/-- The keys of a country map, in insertion order. -/
def keys (l : List (String × Nat)) : List String := l.map Prod.fst

/-- The initial accumulator of the aggregation loop. -/
def acc0 : Acc := ⟨0, 0, 0, []⟩

/-- The worked scenario of the spec: a header row and four data rows,
one non-consenting, one blank, one with an empty country. -/
def demoRows : List Row :=
  [[some "email", some "timestamp", some "acepta_marketing", some "ip_country"],
   [some "a@x.com", some "t1", some "true", some "MX"],
   [some "b@x.com", some "t2", some "no", some "MX"],
   [some "", some "", some "", some ""],
   [some "c@x.com", some "t3", some "1", some ""]]

/-! Helper lemmas about the loop body. -/

theorem processRow_eq (headers : List String) (acc : Acc) (row : Row) :
    processRow headers acc row =
      if Qualifies headers row then countRow headers acc row else acc := by
  by_cases hA : row = [] ∨ isRowEmpty row = true
  · simp [processRow, Qualifies, List.length_eq_zero, hA]
  · by_cases hB : jsTrim (getValue headers row "email") = "" ∧
        jsTrim (getValue headers row "timestamp") = ""
    · simp [processRow, Qualifies, List.length_eq_zero, hA, hB]
    · simp [processRow, Qualifies, List.length_eq_zero, hA, hB]

theorem countRow_total (headers : List String) (acc : Acc) (row : Row) :
    (countRow headers acc row).total = acc.total + 1 := by
  simp only [countRow]
  split_ifs <;> rfl

theorem bump_sumCounts (l : List (String × Nat)) (c : String) :
    sumCounts (bump l c) = sumCounts l + 1 := by
  induction l with
  | nil => rfl
  | cons p rest ih =>
      obtain ⟨k, n⟩ := p
      by_cases h : k = c
      · simp [bump, h, sumCounts]
        omega
      · have hr : (List.map Prod.snd (bump rest c)).sum
            = (List.map Prod.snd rest).sum + 1 := by
          simpa [sumCounts] using ih
        simp [bump, h, sumCounts, hr]
        omega

theorem countRow_marketingYes (headers : List String) (acc : Acc) (row : Row) :
    (countRow headers acc row).marketingYes =
      if isTruthy (some (getValue headers row "acepta_marketing")) then
        acc.marketingYes + 1
      else acc.marketingYes := by
  simp only [countRow]
  split_ifs <;> rfl

theorem countRow_unknown_case (headers : List String) (acc : Acc) (row : Row)
    (h : normCountry headers row = "" ∨ normCountry headers row = "UNKNOWN") :
    (countRow headers acc row).unknownCount = acc.unknownCount + 1 ∧
    (countRow headers acc row).countryCounts = acc.countryCounts := by
  simp only [countRow]
  split_ifs <;> simp_all

theorem countRow_known_case (headers : List String) (acc : Acc) (row : Row)
    (h : ¬(normCountry headers row = "" ∨ normCountry headers row = "UNKNOWN")) :
    (countRow headers acc row).unknownCount = acc.unknownCount ∧
    (countRow headers acc row).countryCounts =
      bump acc.countryCounts (normCountry headers row) := by
  simp only [countRow]
  split_ifs <;> simp_all

/-- The bucket invariant of the aggregation loop: total signups equal
the named-country counts plus the unknown count. -/
def AccInv (acc : Acc) : Prop :=
  acc.total = sumCounts acc.countryCounts + acc.unknownCount

theorem processRow_inv (headers : List String) (acc : Acc) (row : Row)
    (h : AccInv acc) : AccInv (processRow headers acc row) := by
  rw [processRow_eq]
  split
  · unfold AccInv at h ⊢
    rw [countRow_total]
    by_cases hc : normCountry headers row = "" ∨ normCountry headers row = "UNKNOWN"
    · obtain ⟨hu, hk⟩ := countRow_unknown_case headers acc row hc
      rw [hu, hk]
      omega
    · obtain ⟨hu, hk⟩ := countRow_known_case headers acc row hc
      rw [hu, hk, bump_sumCounts]
      omega
  · exact h

theorem foldl_inv (headers : List String) (rows : List Row) (acc : Acc)
    (h : AccInv acc) : AccInv (rows.foldl (processRow headers) acc) := by
  induction rows generalizing acc with
  | nil => exact h
  | cons r rest ih => exact ih _ (processRow_inv headers acc r h)

theorem sorted_counts_sum (l : List (String × Nat)) :
    (((l.map fun p => CountryEntry.mk p.1 p.2).mergeSort countryLe).map
        CountryEntry.count).sum = sumCounts l := by
  have hperm :=
    (List.mergeSort_perm (l.map fun p => CountryEntry.mk p.1 p.2) countryLe).map
      CountryEntry.count
  rw [hperm.sum_eq, List.map_map]
  rfl

/-! Theorems for the claims. -/

/-- C1: for every fetched row set, the Summary produced by
buildSummary satisfies total = sum of the country counts plus
unknownCount: every qualifying record is attributed to exactly one
bucket, either a named country entry or the unknown count. -/
theorem summary_total_eq_buckets (rows : List Row) (nowIso : String) :
    (buildSummaryFromRows rows nowIso).total =
      ((buildSummaryFromRows rows nowIso).countries.map CountryEntry.count).sum
        + (buildSummaryFromRows rows nowIso).unknownCount := by
  unfold buildSummaryFromRows
  split
  · simp [emptySummary]
  · dsimp only
    rw [sorted_counts_sum]
    exact foldl_inv _ _ _ (by simp [AccInv, sumCounts])

/-- C2: a call made while a cache entry exists and the elapsed time
since its fetchedAt is strictly below 60 seconds returns the cached
Summary unchanged, performs no fetch and modifies no state; hence two
calls within one freshness window (the first from a cold cache)
perform exactly one fetch and return the same Summary object, so in
particular identical updatedAt values. -/
theorem cache_hit_frame (st : CacheState) (s : Summary) (now : Int)
    (fetchRes : Except String (List Row)) (nowIso : String)
    (hdata : st.data = some s)
    (hfresh : now - st.fetchedAt < CACHE_TTL_MS) :
    buildSummary now fetchRes nowIso st = (Except.ok s, st, false) ∧
    (∀ (t0 t1 ft : Int) (rows : List Row) (iso0 iso1 : String)
        (fr1 : Except String (List Row)), t1 - t0 < CACHE_TTL_MS →
      (buildSummary t0 (Except.ok rows) iso0 ⟨none, ft⟩).2.2 = true ∧
      buildSummary t1 fr1 iso1
          (buildSummary t0 (Except.ok rows) iso0 ⟨none, ft⟩).2.1 =
        (Except.ok (buildSummaryFromRows rows iso0),
         (buildSummary t0 (Except.ok rows) iso0 ⟨none, ft⟩).2.1, false)) := by
  constructor
  · obtain ⟨d, ftd⟩ := st
    simp only at hdata hfresh
    subst hdata
    simp [buildSummary, hfresh]
  · intro t0 t1 ft rows iso0 iso1 fr1 hwin
    have h1 : buildSummary t0 (Except.ok rows) iso0 ⟨none, ft⟩ =
        (Except.ok (buildSummaryFromRows rows iso0),
         ⟨some (buildSummaryFromRows rows iso0), t0⟩, true) := rfl
    rw [h1]
    exact ⟨rfl, by simp [buildSummary, hwin]⟩

/-- C2 witness: a concrete fresh-cache call serves the cached Summary,
fetching nothing and leaving the slot as it was. -/
theorem cache_hit_frame_witness :
    buildSummary 5 (Except.error "boom") "t2" ⟨some (emptySummary "t"), 0⟩ =
      (Except.ok (emptySummary "t"), ⟨some (emptySummary "t"), 0⟩, false) :=
  (cache_hit_frame ⟨some (emptySummary "t"), 0⟩ (emptySummary "t") 5
    (Except.error "boom") "t2" rfl (by decide)).1

/-- C3: when the fetch fails on a cache miss, the failure propagates to
the caller, the cache slot is left exactly as it was, and the API layer
responds 500 with the fixed JSON error body, not the upstream detail. -/
theorem fetch_failure_frame (st : CacheState) (now : Int) (nowIso : String)
    (e : String)
    (hmiss : st.data = none ∨ CACHE_TTL_MS ≤ now - st.fetchedAt) :
    buildSummary now (Except.error e) nowIso st = (Except.error e, st, true) ∧
    handleSummaryRequest (buildSummary now (Except.error e) nowIso st).1 =
      ApiResponse.failure 500 "Failed to load sheet data" := by
  obtain ⟨d, ftd⟩ := st
  have hb : buildSummary now (Except.error e) nowIso ⟨d, ftd⟩ =
      (Except.error e, ⟨d, ftd⟩, true) := by
    cases d with
    | none => rfl
    | some s =>
        rcases hmiss with h | h
        · exact absurd h (by simp)
        · have hnf : ¬(now - ftd < CACHE_TTL_MS) := not_lt.mpr (by simpa using h)
          simp [buildSummary, hnf]
  exact ⟨hb, by rw [hb]; rfl⟩

/-- C3 witness: a concrete failing fetch from a cold cache propagates
the error, keeps the slot unchanged, and maps to the 500 response. -/
theorem fetch_failure_frame_witness :
    buildSummary 0 (Except.error "boom") "t" ⟨none, 0⟩ =
      (Except.error "boom", ⟨none, 0⟩, true) ∧
    handleSummaryRequest (buildSummary 0 (Except.error "boom") "t" ⟨none, 0⟩).1 =
      ApiResponse.failure 500 "Failed to load sheet data" :=
  fetch_failure_frame ⟨none, 0⟩ 0 "t" "boom" (Or.inl rfl)

/-- C4 counterexample: the claim says that after the first metadata
lookup completes, no later call performs another lookup, regardless of
what the first lookup returned.  Concretely: the first call performs a
lookup that reports no sheets, so the cache stays unpopulated (falsy),
and the next call performs a second metadata lookup — its fetch flag is
true, where the claim requires false. -/
theorem title_cache_refetch_cex :
    (getSheetTitle none none).2.2 = true ∧
    (getSheetTitle none none).2.1 = none ∧
    (getSheetTitle (getSheetTitle none none).2.1 (some "Sheet1")).2.2 = true := by
  decide

/-- C4 amended: the title cache is populated at most once with a
non-empty title: once the cached slot holds a truthy title — in
particular after any call whose metadata lookup yielded a non-empty
title — every later call returns that cached value and performs no
further metadata lookup; a lookup that yields no title leaves the slot
unpopulated and does not prevent later lookups. -/
theorem title_cache_stable_once_truthy (cached lookup lookup2 : Option String)
    (h : titleTruthy (getSheetTitle cached lookup).2.1 = true) :
    getSheetTitle (getSheetTitle cached lookup).2.1 lookup2 =
      ((getSheetTitle cached lookup).2.1,
       (getSheetTitle cached lookup).2.1, false) := by
  generalize (getSheetTitle cached lookup).2.1 = r at h ⊢
  simp [getSheetTitle, h]

/-- C4 witness: after a lookup that yields the title Sheet1, the next
call returns it from the cache without a lookup. -/
theorem title_cache_stable_once_truthy_witness :
    getSheetTitle (getSheetTitle none (some "Sheet1")).2.1 none =
      ((getSheetTitle none (some "Sheet1")).2.1,
       (getSheetTitle none (some "Sheet1")).2.1, false) :=
  title_cache_stable_once_truthy none (some "Sheet1") none (by decide)

theorem Qualifies_iff (headers : List String) (row : Row) :
    Qualifies headers row ↔
      (∃ cell ∈ row, jsTrim (jstr cell) ≠ "") ∧
      (jsTrim (getValue headers row "email") ≠ "" ∨
       jsTrim (getValue headers row "timestamp") ≠ "") := by
  simp only [Qualifies, isRowEmpty, List.all_eq_true, decide_eq_true_eq,
    List.length_eq_zero, not_or, not_and_or, not_forall]
  constructor
  · rintro ⟨⟨hne, hnall⟩, h2⟩
    push_neg at hnall
    obtain ⟨c, hc, hcne⟩ := hnall
    exact ⟨⟨c, hc, hcne⟩, by tauto⟩
  · rintro ⟨⟨c, hc, hcne⟩, h2⟩
    refine ⟨⟨?_, ?_⟩, by tauto⟩
    · rintro rfl
      simp at hc
    · push_neg
      exact ⟨c, hc, hcne⟩

/-- C5: a data row increments total iff it has at least one cell that
is non-blank after trimming and at least one of the email / timestamp
fields (resolved via the header index) is non-blank after trimming;
any other row is skipped and contributes to no Summary field. -/
theorem row_qualification (headers : List String) (acc : Acc) (row : Row) :
    ((processRow headers acc row).total = acc.total + 1 ↔
      (∃ cell ∈ row, jsTrim (jstr cell) ≠ "") ∧
      (jsTrim (getValue headers row "email") ≠ "" ∨
       jsTrim (getValue headers row "timestamp") ≠ "")) ∧
    (¬((∃ cell ∈ row, jsTrim (jstr cell) ≠ "") ∧
       (jsTrim (getValue headers row "email") ≠ "" ∨
        jsTrim (getValue headers row "timestamp") ≠ "")) →
      processRow headers acc row = acc) := by
  constructor
  · rw [processRow_eq]
    by_cases h : Qualifies headers row
    · rw [if_pos h]
      exact iff_of_true (countRow_total headers acc row)
        ((Qualifies_iff headers row).mp h)
    · rw [if_neg h]
      exact iff_of_false (by omega)
        (fun hr => h ((Qualifies_iff headers row).mpr hr))
  · intro hnr
    rw [processRow_eq,
      if_neg (fun h => hnr ((Qualifies_iff headers row).mp h))]

/-- C5 witness: an entirely blank row is skipped and changes nothing. -/
theorem row_qualification_witness :
    processRow ["email"] acc0 [some " ", none] = acc0 :=
  (row_qualification ["email"] acc0 [some " ", none]).2 (by decide)

/-- C6: for a qualifying row the country bucket key is the trimmed
uppercased raw code — so codes differing only in case or surrounding
whitespace, such as the concrete values given with the claim, share one
bucket — and when the normalized code is empty or UNKNOWN, unknownCount
is incremented and no country bucket is created or updated. -/
theorem country_bucketing (headers : List String) (acc : Acc) (row : Row)
    (hq : Qualifies headers row) :
    (getValue headers row "ip_country" ≠ "" →
      normCountry headers row =
        jsToUpper (jsTrim (getValue headers row "ip_country"))) ∧
    (normCountry headers row = "" ∨ normCountry headers row = "UNKNOWN" →
      (processRow headers acc row).unknownCount = acc.unknownCount + 1 ∧
      (processRow headers acc row).countryCounts = acc.countryCounts) ∧
    (¬(normCountry headers row = "" ∨ normCountry headers row = "UNKNOWN") →
      (processRow headers acc row).unknownCount = acc.unknownCount ∧
      (processRow headers acc row).countryCounts =
        bump acc.countryCounts (normCountry headers row)) ∧
    (jsToUpper (jsTrim " us ") = "US" ∧ jsToUpper (jsTrim "US") = "US" ∧
     jsToUpper (jsTrim "us") = "US") := by
  refine ⟨?_, ?_, ?_, by decide⟩
  · intro hne
    simp [normCountry, hne]
  · intro hc
    rw [processRow_eq, if_pos hq]
    exact countRow_unknown_case headers acc row hc
  · intro hc
    rw [processRow_eq, if_pos hq]
    exact countRow_known_case headers acc row hc

/-- C6 witness: a qualifying row whose raw country is " us " is
bucketed under the key US and does not touch unknownCount. -/
theorem country_bucketing_witness :
    normCountry ["email", "ip_country"] [some "a@x.com", some " us "] = "US" ∧
    (processRow ["email", "ip_country"] acc0
        [some "a@x.com", some " us "]).countryCounts =
      bump acc0.countryCounts
        (normCountry ["email", "ip_country"] [some "a@x.com", some " us "]) :=
  ⟨by decide,
   ((country_bucketing ["email", "ip_country"] acc0
       [some "a@x.com", some " us "] (by decide)).2.2.1 (by decide)).2⟩

/-- C9: for a qualifying row marketingYes is incremented iff the
trimmed case-folded consent field is one of true, 1, yes, si; the
concrete values enumerated by the claim behave accordingly. -/
theorem marketing_consent (headers : List String) (acc : Acc) (row : Row)
    (hq : Qualifies headers row) :
    ((processRow headers acc row).marketingYes = acc.marketingYes + 1 ↔
      jsToLower (jsTrim (getValue headers row "acepta_marketing"))
        ∈ truthyValues) ∧
    (isTruthy (some "TRUE") = true ∧ isTruthy (some "Yes") = true ∧
     isTruthy (some "1") = true ∧ isTruthy (some "si") = true ∧
     isTruthy (some " SI ") = true ∧ isTruthy (some "no") = false ∧
     isTruthy (some "0") = false ∧ isTruthy (some "") = false ∧
     isTruthy (some "false") = false) := by
  refine ⟨?_, by decide⟩
  rw [processRow_eq, if_pos hq, countRow_marketingYes]
  by_cases hm : isTruthy (some (getValue headers row "acepta_marketing")) = true
  · rw [if_pos hm]
    refine iff_of_true rfl ?_
    simpa [isTruthy, jstr] using hm
  · rw [if_neg hm]
    refine iff_of_false (by omega) ?_
    intro hmem
    exact hm (by simpa [isTruthy, jstr] using hmem)

/-- C9 witness: a qualifying row with consent value Yes increments
marketingYes. -/
theorem marketing_consent_witness :
    (processRow ["email", "acepta_marketing"] acc0
        [some "a@x.com", some "Yes"]).marketingYes = acc0.marketingYes + 1 :=
  ((marketing_consent ["email", "acepta_marketing"] acc0
      [some "a@x.com", some "Yes"] (by decide)).1).mpr (by decide)

/-- C10: field extraction is total over ragged input: a column missing
from the header, a column index beyond the row length, and a null or
empty (falsy) cell each yield the empty string, so no row shape can
abort the aggregation — every case of getValue is covered and returns a
string. -/
theorem getValue_total (headers : List String) (row : Row) (name : String) :
    (indexOf headers name = none → getValue headers row name = "") ∧
    (∀ idx, indexOf headers name = some idx → row.length ≤ idx →
      getValue headers row name = "") ∧
    (∀ idx, indexOf headers name = some idx →
      (row.get? idx = some none ∨ row.get? idx = some (some "")) →
      getValue headers row name = "") := by
  refine ⟨?_, ?_, ?_⟩
  · intro h
    simp [getValue, h]
  · intro idx h hlen
    have hnone : row.get? idx = none := List.get?_eq_none.mpr hlen
    rw [List.get?_eq_getElem?] at hnone
    simp [getValue, h, hnone, jstr]
  · intro idx h hc
    rcases hc with hc | hc <;> rw [List.get?_eq_getElem?] at hc <;>
      simp [getValue, h, hc, jstr]

/-- C10 witness: a header without the column, a one-column row probed
past its end, and a null cell all extract the empty string. -/
theorem getValue_total_witness :
    getValue ["email"] [some "a"] "timestamp" = "" ∧
    getValue ["email", "ip_country"] [some "a"] "ip_country" = "" ∧
    getValue ["email"] [none] "email" = "" :=
  ⟨(getValue_total ["email"] [some "a"] "timestamp").1 (by decide),
   (getValue_total ["email", "ip_country"] [some "a"] "ip_country").2.1 1
     (by decide) (by decide),
   (getValue_total ["email"] [none] "email").2.2 0 (by decide)
     (Or.inl (by decide))⟩

/-- C8: marketingRate is 0 when total is 0 and is exactly
marketingYes divided by total when total is positive. -/
theorem marketing_rate_def (rows : List Row) (nowIso : String) :
    ((buildSummaryFromRows rows nowIso).total = 0 →
      (buildSummaryFromRows rows nowIso).marketingRate = 0) ∧
    (0 < (buildSummaryFromRows rows nowIso).total →
      (buildSummaryFromRows rows nowIso).marketingRate =
        ((buildSummaryFromRows rows nowIso).marketingYes : ℚ) /
          ((buildSummaryFromRows rows nowIso).total : ℚ)) := by
  unfold buildSummaryFromRows
  split
  · simp [emptySummary]
  · dsimp only
    constructor
    · intro h
      rw [if_pos h]
    · intro h
      rw [if_neg (by omega)]

/-- C8 witness: the zero-row Summary has rate 0; the worked scenario
has positive total and rate equal to the exact quotient. -/
theorem marketing_rate_def_witness :
    (buildSummaryFromRows [] "t").marketingRate = 0 ∧
    0 < (buildSummaryFromRows demoRows "t").total ∧
    (buildSummaryFromRows demoRows "t").marketingRate =
      ((buildSummaryFromRows demoRows "t").marketingYes : ℚ) /
        ((buildSummaryFromRows demoRows "t").total : ℚ) :=
  ⟨(marketing_rate_def [] "t").1 (by decide), by decide,
   (marketing_rate_def demoRows "t").2 (by decide)⟩

theorem mem_keys_bump (l : List (String × Nat)) (c x : String) :
    x ∈ keys (bump l c) ↔ x ∈ keys l ∨ x = c := by
  induction l with
  | nil => simp [bump, keys]
  | cons p rest ih =>
      obtain ⟨k, n⟩ := p
      by_cases h : k = c
      · subst h
        simp [bump, keys]
        tauto
      · simp [bump, h, keys] at ih ⊢
        tauto

theorem keys_bump_nodup (l : List (String × Nat)) (c : String)
    (h : (keys l).Nodup) : (keys (bump l c)).Nodup := by
  induction l with
  | nil => simp [bump, keys]
  | cons p rest ih =>
      obtain ⟨k, n⟩ := p
      simp only [keys, List.map_cons, List.nodup_cons] at h
      obtain ⟨hk, hrest⟩ := h
      by_cases hc : k = c
      · subst hc
        have hb : bump ((k, n) :: rest) k = (k, n + 1) :: rest := by simp [bump]
        rw [hb]
        simp only [keys, List.map_cons, List.nodup_cons]
        exact ⟨by simpa [keys] using hk, by simpa [keys] using hrest⟩
      · have hb : bump ((k, n) :: rest) c = (k, n) :: bump rest c := by
          simp [bump, hc]
        rw [hb]
        simp only [keys, List.map_cons, List.nodup_cons]
        refine ⟨?_, ih (by simpa [keys] using hrest)⟩
        rw [show (List.map Prod.fst (bump rest c)) = keys (bump rest c) from rfl,
          mem_keys_bump]
        push_neg
        exact ⟨by simpa [keys] using hk, hc⟩

theorem processRow_keys_nodup (headers : List String) (acc : Acc) (row : Row)
    (h : (keys acc.countryCounts).Nodup) :
    (keys (processRow headers acc row).countryCounts).Nodup := by
  rw [processRow_eq]
  split
  · by_cases hc : normCountry headers row = "" ∨ normCountry headers row = "UNKNOWN"
    · rw [(countRow_unknown_case headers acc row hc).2]
      exact h
    · rw [(countRow_known_case headers acc row hc).2]
      exact keys_bump_nodup _ _ h
  · exact h

theorem foldl_keys_nodup (headers : List String) (rows : List Row) (acc : Acc)
    (h : (keys acc.countryCounts).Nodup) :
    (keys (rows.foldl (processRow headers) acc).countryCounts).Nodup := by
  induction rows generalizing acc with
  | nil => exact h
  | cons r rest ih => exact ih _ (processRow_keys_nodup headers acc r h)

theorem mem_keys_foldl (headers : List String) (rows : List Row) (acc : Acc)
    (c : String) :
    c ∈ keys (rows.foldl (processRow headers) acc).countryCounts ↔
      c ∈ keys acc.countryCounts ∨
      ∃ r ∈ rows, Qualifies headers r ∧ normCountry headers r = c ∧
        c ≠ "" ∧ c ≠ "UNKNOWN" := by
  induction rows generalizing acc with
  | nil => simp
  | cons r rest ih =>
      rw [List.foldl_cons, ih, processRow_eq]
      by_cases hq : Qualifies headers r
      · rw [if_pos hq]
        by_cases hc : normCountry headers r = "" ∨ normCountry headers r = "UNKNOWN"
        · rw [(countRow_unknown_case headers acc r hc).2]
          simp only [List.mem_cons]
          constructor
          · rintro (h | ⟨r2, hr2, hrest⟩)
            · exact Or.inl h
            · exact Or.inr ⟨r2, Or.inr hr2, hrest⟩
          · rintro (h | ⟨r2, hr2mem, hq2, hnorm, hne, hnu⟩)
            · exact Or.inl h
            · rcases hr2mem with rfl | hr2
              · rw [hnorm] at hc
                rcases hc with hc | hc
                · exact absurd hc hne
                · exact absurd hc hnu
              · exact Or.inr ⟨r2, hr2, hq2, hnorm, hne, hnu⟩
        · rw [(countRow_known_case headers acc r hc).2]
          push_neg at hc
          simp only [show ∀ x,
              (x ∈ keys (bump acc.countryCounts (normCountry headers r))) =
                (x ∈ keys acc.countryCounts ∨ x = normCountry headers r) from
            fun x => propext (mem_keys_bump _ _ x), List.mem_cons]
          constructor
          · rintro ((h | rfl) | ⟨r2, hr2, hrest⟩)
            · exact Or.inl h
            · exact Or.inr ⟨r, Or.inl rfl, hq, rfl, hc.1, hc.2⟩
            · exact Or.inr ⟨r2, Or.inr hr2, hrest⟩
          · rintro (h | ⟨r2, hr2mem, hq2, hnorm, hne, hnu⟩)
            · exact Or.inl (Or.inl h)
            · rcases hr2mem with rfl | hr2
              · exact Or.inl (Or.inr hnorm.symm)
              · exact Or.inr ⟨r2, hr2, hq2, hnorm, hne, hnu⟩
      · rw [if_neg hq]
        simp only [List.mem_cons]
        constructor
        · rintro (h | ⟨r2, hr2, hrest⟩)
          · exact Or.inl h
          · exact Or.inr ⟨r2, Or.inr hr2, hrest⟩
        · rintro (h | ⟨r2, hr2mem, hq2, hrest⟩)
          · exact Or.inl h
          · rcases hr2mem with rfl | hr2
            · exact absurd hq2 hq
            · exact Or.inr ⟨r2, hr2, hq2, hrest⟩

theorem countryLe_trans (a b c : CountryEntry) :
    countryLe a b = true → countryLe b c = true → countryLe a c = true := by
  simp only [countryLe, decide_eq_true_eq]
  omega

theorem countryLe_total (a b : CountryEntry) :
    (countryLe a b || countryLe b a) = true := by
  simp only [countryLe, Bool.or_eq_true, decide_eq_true_eq]
  omega

theorem topCountry_eq_head (rows : List Row) (nowIso : String) :
    (buildSummaryFromRows rows nowIso).topCountry =
      (buildSummaryFromRows rows nowIso).countries.head? := by
  unfold buildSummaryFromRows
  split <;> rfl

theorem countries_eq_of_ne (rows : List Row) (nowIso : String)
    (h : ¬rows.isEmpty = true) :
    (buildSummaryFromRows rows nowIso).countries =
      ((rows.tail.foldl
          (processRow ((rows.headD []).map normalizeHeader))
          ⟨0, 0, 0, []⟩).countryCounts.map
        fun p => CountryEntry.mk p.1 p.2).mergeSort countryLe := by
  unfold buildSummaryFromRows
  rw [if_neg h]

/-- C7: the countries list is sorted non-increasing by count, holds one
entry per distinct normalized non-empty non-UNKNOWN code occurring in a
qualifying data row, topCountry equals its head (null when empty); for
a fixed row set the list does not depend on the clock input, the only
other input, so the order is deterministic. -/
theorem countries_shape (rows : List Row) (nowIso nowIso2 : String) :
    ((buildSummaryFromRows rows nowIso).countries.Pairwise
        fun a b => b.count ≤ a.count) ∧
    ((buildSummaryFromRows rows nowIso).countries.map CountryEntry.code).Nodup ∧
    (∀ c : String,
      c ∈ (buildSummaryFromRows rows nowIso).countries.map CountryEntry.code ↔
        ∃ r ∈ rows.tail,
          Qualifies ((rows.headD []).map normalizeHeader) r ∧
          normCountry ((rows.headD []).map normalizeHeader) r = c ∧
          c ≠ "" ∧ c ≠ "UNKNOWN") ∧
    (buildSummaryFromRows rows nowIso).topCountry =
      (buildSummaryFromRows rows nowIso).countries.head? ∧
    (buildSummaryFromRows rows nowIso).countries =
      (buildSummaryFromRows rows nowIso2).countries := by
  by_cases he : rows.isEmpty = true
  · have hr : rows = [] := by simpa using he
    subst hr
    simp [buildSummaryFromRows, emptySummary]
  · have hc := countries_eq_of_ne rows nowIso he
    have hc2 := countries_eq_of_ne rows nowIso2 he
    have hperm :=
      List.mergeSort_perm
        ((rows.tail.foldl
            (processRow ((rows.headD []).map normalizeHeader))
            ⟨0, 0, 0, []⟩).countryCounts.map
          fun p => CountryEntry.mk p.1 p.2) countryLe
    have hkeys :
        (((rows.tail.foldl
              (processRow ((rows.headD []).map normalizeHeader))
              ⟨0, 0, 0, []⟩).countryCounts.map
            fun p => CountryEntry.mk p.1 p.2).map CountryEntry.code) =
          keys (rows.tail.foldl
              (processRow ((rows.headD []).map normalizeHeader))
              ⟨0, 0, 0, []⟩).countryCounts := by
      rw [List.map_map]
      rfl
    refine ⟨?_, ?_, ?_, topCountry_eq_head rows nowIso, by rw [hc, hc2]⟩
    · rw [hc]
      exact (List.sorted_mergeSort countryLe_trans countryLe_total _).imp
        fun h => by simpa [countryLe] using h
    · rw [hc]
      have hnd := foldl_keys_nodup ((rows.headD []).map normalizeHeader)
        rows.tail ⟨0, 0, 0, []⟩ (by simp [keys])
      exact ((hperm.map CountryEntry.code).nodup_iff).mpr (by rw [hkeys]; exact hnd)
    · intro c
      rw [hc, (hperm.map CountryEntry.code).mem_iff, hkeys]
      rw [mem_keys_foldl]
      simp [keys]

end Dashboard
